import Mathlib

/-!
Verification of the JobSeeker normalization-and-merge pipeline.

This file gives a shallow embedding, in Lean 4, of the deterministic core of
the repository:

* `job_engine/utils.py` — `stable_id` (sha256-based identifier) and
  `uniq_preserve_order`;
* `job_engine/normalize.py` — keyword lists, `infer_seniority`,
  `extract_function_keywords`, `is_electronics_role`, `extract_requirements`;
* `job_engine/sources/remotive.py` and `job_engine/sources/arbeitnow.py` —
  the date-posted derivations and the rate-limit retry loop;
* `run_fetch.py` — the interleave/dedup merge algorithm.

Python strings are modelled as Lean `String` (sequences of code points, so
`len` agrees with `String.length`); Python `None` as `Option`; machine
integers as `Nat`/`Int` with explicit `% 2^w` where wrap-around matters;
floats occurring in the backoff/timestamp logic as exact rationals.  The few
standard-library functions the code relies on (`str.strip`, `str.lower`,
`str.replace`, `re.search` on the fixed seniority patterns, `re.finditer` on
the fixed bullet regex, `datetime.fromisoformat`, `hashlib.sha256`) are
implemented here, restricted to the exact pattern shapes the source uses.
Recursions that mirror `while` loops are expressed with an explicit fuel or
budget argument whose initial value provably dominates the number of
iterations, so every definition is executable by the kernel.
-/

/-! ## Basic Python string primitives -/

/-- Python `str.isspace` / `\s` on the ASCII range (the characters the regexes
and `strip` treat as whitespace for the inputs at hand). -/
def isPySpace (c : Char) : Bool :=
  c = ' ' || c = '\t' || c = '\n' || c = '\r' || c = '\x0b' || c = '\x0c'

/-- ASCII lower-casing of one character, as Python `str.lower` acts on ASCII. -/
def lowerChar (c : Char) : Char :=
  if 'A' ≤ c && c ≤ 'Z' then Char.ofNat (c.toNat + 32) else c

/-- Python `str.lower` (ASCII fragment). -/
def pyLower (s : String) : String := String.mk (s.data.map lowerChar)

/-- Strip leading and trailing whitespace from a character list. -/
def stripChars (l : List Char) : List Char :=
  ((l.dropWhile isPySpace).reverse.dropWhile isPySpace).reverse

/-- Python `str.strip()`. -/
def pyStrip (s : String) : String := String.mk (stripChars s.data)

/-- Python slicing `s[:n]`. -/
def pyTake (n : Nat) (s : String) : String := String.mk (s.data.take n)

/-- Does `needle` occur at the head of `hay`? -/
def leadMatch : List Char → List Char → Bool
  | [], _ => true
  | _ :: _, [] => false
  | a :: xs, b :: ys => a = b && leadMatch xs ys

/-- Does `needle` occur anywhere in `hay`?  (Python `needle in hay`.) -/
def hasSub (needle : List Char) : List Char → Bool
  | [] => needle.isEmpty
  | c :: rest => leadMatch needle (c :: rest) || hasSub needle rest

/-- Python substring test `needle in hay`. -/
def subStr (needle hay : String) : Bool := hasSub needle.data hay.data

/-- Fueled worker for `str.replace`: replaces every occurrence of `old` by
`new`, scanning left to right.  Each step consumes at least one character of
the subject, so fuel `s.length` suffices. -/
def pyReplaceGo (old new : List Char) : Nat → List Char → List Char
  | _, [] => []
  | 0, s => s
  | fuel + 1, c :: rest =>
    if old ≠ [] && leadMatch old (c :: rest) then
      new ++ pyReplaceGo old new fuel ((c :: rest).drop old.length)
    else
      c :: pyReplaceGo old new fuel rest

/-- Python `s.replace(old, new)` for non-empty `old` (all uses in the source
have non-empty patterns). -/
def pyReplace (s old new : String) : String :=
  String.mk (pyReplaceGo old.data new.data s.data.length s.data)

/-! ## `job_engine/utils.py` : `uniq_preserve_order` -/

/-- The dedup key used by `uniq_preserve_order`: `it.strip().lower()`. -/
def uniqKey (it : String) : String := pyLower (pyStrip it)

/-- Loop of `uniq_preserve_order`, with the `seen` set of keys made explicit.
Falsy (empty) items are skipped, later items whose key was already seen are
dropped, first occurrences are kept in order. -/
def uniqGo (seen : List String) : List String → List String
  | [] => []
  | it :: rest =>
    if it = "" then uniqGo seen rest
    else if uniqKey it ∈ seen then uniqGo seen rest
    else it :: uniqGo (uniqKey it :: seen) rest

/-- `uniq_preserve_order` from `job_engine/utils.py`. -/
def uniq_preserve_order (items : List String) : List String := uniqGo [] items

/-! ## `job_engine/normalize.py` : keyword lists and simple heuristics -/

/-- `INCLUDE_KEYWORDS` from `job_engine/normalize.py`, verbatim (note the two
keywords written with upper-case letters in the source). -/
def INCLUDE_KEYWORDS : List String :=
  ["electronics", "electronic", "electrical", "hardware", "embedded",
   "firmware", "pcb", "schematic", "analog", "mixed-signal", "mixed signal",
   "power electronics", "power supply", "dc-dc", "buck", "boost", "rf",
   "antenna", "signal integrity", "emi", "emc", "verification", "validation",
   "test engineer", "lab engineer", "board bring-up", "board bring up",
   "fpga", "microcontroller", "stm32", "esp32", "FAE",
   "Field Application Engineer"]

/-- `EXCLUDE_KEYWORDS` from `job_engine/normalize.py`, verbatim. -/
def EXCLUDE_KEYWORDS : List String :=
  ["marketing", "sales", "account executive", "recruiter",
   "talent acquisition", "hr", "human resources", "product marketing"]

/-- The keyword normalization applied inside `extract_function_keywords`:
`kw.replace("mixed signal", "mixed-signal").replace("board bring up",
"board bring-up")`. -/
def normalizeKw (kw : String) : String :=
  pyReplace (pyReplace kw "mixed signal" "mixed-signal")
    "board bring up" "board bring-up"

/-- `extract_function_keywords` from `job_engine/normalize.py`: lower-case the
text, keep every inclusion keyword occurring as a plain substring (the keyword
itself is *not* lower-cased), normalize variants, dedup preserving order. -/
def extract_function_keywords (text : String) : List String :=
  let t := pyLower text
  let hits := INCLUDE_KEYWORDS.filterMap fun kw =>
    if subStr kw t then some (normalizeKw kw) else none
  uniq_preserve_order hits

/-- The combined lower-cased blob `f"{title}\n{description}".lower()` used by
`is_electronics_role`. -/
def roleBlob (title description : String) : String :=
  pyLower (title ++ "\n" ++ description)

/-- `is_electronics_role` from `job_engine/normalize.py`: reject if any
exclusion keyword occurs as a substring, otherwise accept iff some inclusion
keyword occurs as a substring. -/
def is_electronics_role (title description : String) : Bool :=
  let blob := roleBlob title description
  if EXCLUDE_KEYWORDS.any (fun kw => subStr kw blob) then false
  else INCLUDE_KEYWORDS.any (fun kw => subStr kw blob)

/-! ## A matcher for the fixed seniority regexes

Every pattern in `SENIORITY_PATTERNS` has the shape `\b(alt|alt|...)\b` where
each alternative is a sequence of literal characters, optionally containing
`\s*` (in `entry\s*level`, `mid\s*level`) or `\.?` (in `jr\.?`, `sr\.?`).
We implement `re.search` for exactly this pattern class, with Python's
word-boundary semantics (`\w` = alphanumeric or underscore; ASCII fragment). -/

/-- Python `\w` (ASCII fragment). -/
def isWordChar (c : Char) : Bool := c.isAlphanum || c = '_'

/-- Word-character test on an optional character; out-of-string counts as
non-word. -/
def optWord : Option Char → Bool
  | none => false
  | some c => isWordChar c

/-- `\b` holds at a position iff exactly one of the characters around it is a
word character. -/
def bdry (a b : Option Char) : Bool := optWord a != optWord b

/-- Tokens of the restricted regex alternatives. -/
inductive RTok where
  | lit (c : Char)
  | wsStar
  | dotOpt
deriving DecidableEq

/-- Literal token sequence for a plain string. -/
def lits (s : String) : List RTok := s.data.map RTok.lit

/-- All ways a token sequence can match a prefix of `s`, starting with `prev`
as the last character consumed so far.  Returns the list of
`(last consumed character, remaining suffix)` outcomes.  Fueled: the sum
`toks.length + s.length` strictly decreases at every call, so fuel
`toks.length + s.length + 1` is always sufficient. -/
def matchToksGo : Nat → List RTok → Option Char → List Char → List (Option Char × List Char)
  | 0, _, _, _ => []
  | _ + 1, [], prev, s => [(prev, s)]
  | fuel + 1, RTok.lit c :: ts, _, s =>
    match s with
    | [] => []
    | a :: rest => if a = c then matchToksGo fuel ts (some a) rest else []
  | fuel + 1, RTok.dotOpt :: ts, prev, s =>
    matchToksGo fuel ts prev s ++
      (match s with
       | '.' :: rest => matchToksGo fuel ts (some '.') rest
       | _ => [])
  | fuel + 1, RTok.wsStar :: ts, prev, s =>
    matchToksGo fuel ts prev s ++
      (match s with
       | a :: rest =>
         if isPySpace a then matchToksGo fuel (RTok.wsStar :: ts) (some a) rest
         else []
       | [] => [])

/-- Does some alternative match at the current position (between `prev` and
`s`), respecting the surrounding `\b` anchors? -/
def altHere (alt : List RTok) (prev : Option Char) (s : List Char) : Bool :=
  bdry prev s.head? &&
    (matchToksGo (alt.length + s.length + 1) alt prev s).any fun pr =>
      bdry pr.1 pr.2.head?

/-- Scan all start positions; `prev` is the character just before the current
position. -/
def reSearchGo (alts : List (List RTok)) : Option Char → List Char → Bool
  | prev, s =>
    (alts.any fun alt => altHere alt prev s) ||
      match s with
      | [] => false
      | c :: rest => reSearchGo alts (some c) rest

/-- `re.search` for a pattern `\b(alt|...|alt)\b` over the given text: true
iff some alternative matches at some position with word boundaries. -/
def reSearch (alts : List (List RTok)) (t : String) : Bool :=
  reSearchGo alts none t.data

/-- Does `kw` occur in `t` as a whole word (i.e. would `\b kw \b` match)? -/
def wholeWord (kw t : String) : Bool := reSearch [lits kw] t

/-- `SENIORITY_PATTERNS` from `job_engine/normalize.py`, with each regex
transcribed into the restricted token language. -/
def SENIORITY_PATTERNS : List (List (List RTok) × String) :=
  [([lits "intern"], "intern"),
   ([lits "entry" ++ [RTok.wsStar] ++ lits "level", lits "junior",
     lits "jr" ++ [RTok.dotOpt], lits "associate"], "junior"),
   ([lits "mid" ++ [RTok.wsStar] ++ lits "level", lits "intermediate"], "mid"),
   ([lits "senior", lits "sr" ++ [RTok.dotOpt], lits "lead"], "senior"),
   ([lits "staff"], "staff"),
   ([lits "principal", lits "architect"], "principal"),
   ([lits "manager", lits "engineering manager"], "manager"),
   ([lits "director"], "director"),
   ([lits "vice president", lits "vp"], "vp"),
   ([lits "chief", lits "cxo", lits "cto", lits "ceo", lits "cpo",
     lits "cfo"], "cxo")]

/-- The loop of `infer_seniority`: first pattern that matches wins. -/
def inferGo : List (List (List RTok) × String) → String → String
  | [], _ => "unknown"
  | pl :: rest, t => if reSearch pl.1 t then pl.2 else inferGo rest t

/-- `infer_seniority` from `job_engine/normalize.py`. -/
def infer_seniority (title : String) : String :=
  inferGo SENIORITY_PATTERNS (pyLower title)

/-! ## `run_fetch.py` : interleave/dedup merge

The merge step of `main()` interleaves the two per-source lists with a shared
index, dedups by `id`, caps the output at `limit`, and then (if still under
the limit) appends not-yet-seen leftovers from `remotive_jobs[i:] +
arbeitnow_jobs[i:]`.  Records are modelled by the fields the merge reads:
the identifier, plus an opaque payload standing for the rest of the record. -/

/-- A normalized job record, as far as the merge algorithm observes it. -/
structure Rec where
  id : String
  payload : Nat
deriving DecidableEq

/-- The guarded emission `if j.id not in seen: seen.add(j.id);
jobs.append(j)` from `main()`, applied to an optional record (`none` when the
shared index is past the end of the list). -/
def emit (o : Option Rec) (p : List Rec × List String) :
    List Rec × List String :=
  match o with
  | some j => if j.id ∈ p.2 then p else (p.1 ++ [j], j.id :: p.2)
  | none => p

/-- The interleave `while` loop.  Arguments after the lists: fuel, the shared
index `i`, the accumulated output `jobs` and the set `seen` of emitted ids
(as a list).  The loop runs at most `max A.length B.length` iterations, each
consuming one unit of fuel; with that initial fuel the fuel-exhausted branch
coincides with the loop's own exit condition.  Returns `(jobs, seen, i)` as
left at loop exit (on `break`, `i` is not incremented, as in the source). -/
def interGo (maxLen : Nat) (A B : List Rec) :
    Nat → Nat → List Rec × List String → List Rec × List String × Nat
  | 0, i, p => (p.1, p.2, i)
  | fuel + 1, i, p =>
    if maxLen ≤ p.1.length ∨ (A.length ≤ i ∧ B.length ≤ i) then
      (p.1, p.2, i)
    else
      let p1 := emit A[i]? p
      if maxLen ≤ p1.1.length then (p1.1, p1.2, i)
      else interGo maxLen A B fuel (i + 1) (emit B[i]? p1)

/-- The interleave phase as invoked by `main()`: index starts at 0, output and
seen-set empty. -/
def interleave_phase (maxLen : Nat) (A B : List Rec) :
    List Rec × List String × Nat :=
  interGo maxLen A B (max A.length B.length) 0 ([], [])

/-- The "append remaining unique jobs" `for` loop of `main()`: skip seen ids,
append, stop as soon as the limit is reached. -/
def fillGo (maxLen : Nat) : List Rec → List Rec → List String → List Rec
  | [], jobs, _ => jobs
  | j :: rest, jobs, seen =>
    if j.id ∈ seen then fillGo maxLen rest jobs seen
    else if maxLen ≤ (jobs ++ [j]).length then jobs ++ [j]
    else fillGo maxLen rest (jobs ++ [j]) (j.id :: seen)

/-- The full merge step of `main()` in `run_fetch.py`: interleave phase, then
the fill phase over `remotive_jobs[i:] + arbeitnow_jobs[i:]`, guarded by
`len(jobs) < max_len`. -/
def merge_jobs (maxLen : Nat) (A B : List Rec) : List Rec :=
  if (interleave_phase maxLen A B).1.length < maxLen then
    fillGo maxLen
      (A.drop (interleave_phase maxLen A B).2.2 ++
        B.drop (interleave_phase maxLen A B).2.2)
      (interleave_phase maxLen A B).1 (interleave_phase maxLen A B).2.1
  else (interleave_phase maxLen A B).1

def ra1 : Rec := ⟨"a1", 1⟩
def ra2 : Rec := ⟨"a2", 2⟩
def ra3 : Rec := ⟨"a3", 3⟩
def rb1 : Rec := ⟨"b1", 4⟩
def rb2 : Rec := ⟨"b2", 5⟩

/-! ## `extract_requirements` and the bullet regex

`REQ_BULLET_RE = (?:^|\n)\s*(?:[-*•]|\d+\.)\s+(.+?)(?=\n\s*(?:[-*•]|\d+\.)\s+|\Z)`
with `re.DOTALL`, used through `re.finditer`.  We implement the scan
operationally: at each position try to match the bullet prefix (optional
newline / start anchor, greedy `\s*`, a marker `[-*•]` or `\d+\.`, then at
least one whitespace character), then lazily capture at least one character
up to the first position where the lookahead (next bullet line or end of
input) holds.  When the whitespace run after the marker extends to the end of
the input, the regex engine backtracks `\s+` so that the mandatory capture
takes the final whitespace character — mirrored in `tryBulletFrom`. -/

/-- ASCII digit test (`\d`, ASCII fragment). -/
def isDigitCh (c : Char) : Bool := '0' ≤ c && c ≤ '9'

/-- Bullet marker characters `[-*•]`. -/
def isBulletChar (c : Char) : Bool := c = '-' || c = '*' || c = '•'

/-- Consume the marker `(?:[-*•]|\d+\.)` at the head of `s1`, returning the
suffix after it.  `\d+` is a maximal digit run (a shorter run cannot help,
since it would have to end before a digit while `\.` requires a dot). -/
def markerTail (s1 : List Char) : Option (List Char) :=
  match s1 with
  | [] => none
  | c :: rest =>
    if isBulletChar c then some rest
    else if isDigitCh c then
      match s1.dropWhile isDigitCh with
      | '.' :: rest2 => some rest2
      | _ => none
    else none

/-- The lookahead alternative `\n\s*(?:[-*•]|\d+\.)\s+`. -/
def lookBullet (r : List Char) : Bool :=
  match r with
  | '\n' :: r1 =>
    match markerTail (r1.dropWhile isPySpace) with
    | some r2 =>
      match r2 with
      | c :: _ => isPySpace c
      | [] => false
    | none => false
  | _ => false

/-- The full lookahead `(?=\n\s*(?:[-*•]|\d+\.)\s+|\Z)`. -/
def lookaheadOk (r : List Char) : Bool := r.isEmpty || lookBullet r

/-- Lazy capture `(.+?)` (DOTALL): `acc` holds the reversed characters taken
so far (at least one on entry); stop at the first position where the
lookahead holds.  The lookahead always holds at the end of input, so the
capture never fails. -/
def capLoop : List Char → List Char → List Char × List Char
  | acc, [] => (acc.reverse, [])
  | acc, c :: r =>
    if lookaheadOk (c :: r) then (acc.reverse, c :: r)
    else capLoop (c :: acc) r

/-- Try the part of the bullet pattern after the `(?:^|\n)` anchor, starting
at `s0`: greedy `\s*`, marker, `\s+`, lazy capture.  Returns
`(capture, suffix after the match)` on success. -/
def tryBulletFrom (s0 : List Char) : Option (List Char × List Char) :=
  match markerTail (s0.dropWhile isPySpace) with
  | none => none
  | some afterM =>
    let ws := afterM.takeWhile isPySpace
    let rest := afterM.drop ws.length
    if ws.isEmpty then none
    else
      match rest with
      | c :: cs => some (capLoop [c] cs)
      | [] =>
        -- input ends in whitespace: backtrack `\s+` by one character so the
        -- mandatory capture can take it (needs at least two whitespace chars)
        if 2 ≤ ws.length then some ([ws.getLastD ' '], []) else none

/-- Try a bullet match exactly at the current position: the `^` branch (only
at the very start of the subject) is preferred over the `\n` branch, as in
the regex alternation. -/
def matchBulletAt (atStart : Bool) (s : List Char) :
    Option (List Char × List Char) :=
  (if atStart then tryBulletFrom s else none).orElse fun _ =>
    match s with
    | '\n' :: r => tryBulletFrom r
    | _ => none

/-- `re.finditer` scan: on a match emit the capture and resume at the match
end; otherwise advance one position.  Every successful match consumes at
least one character from the current position, so fuel `s.length + 1`
dominates the number of steps. -/
def scanBullets : Nat → Bool → List Char → List (List Char)
  | 0, _, _ => []
  | fuel + 1, atStart, s =>
    match matchBulletAt atStart s with
    | some (cap, rem) => cap :: scanBullets fuel false rem
    | none =>
      match s with
      | [] => []
      | _ :: r => scanBullets fuel false r

/-- All `group(1)` captures of `REQ_BULLET_RE.finditer` over a subject. -/
def reqBulletCaptures (s : List Char) : List (List Char) :=
  scanBullets (s.length + 1) true s

/-- One pass of `re.sub(r"\s+", " ", ·)`: every maximal whitespace run
becomes a single space.  The flag records whether the previous character was
whitespace. -/
def collapseGo : Bool → List Char → List Char
  | _, [] => []
  | inWs, c :: rest =>
    if isPySpace c then
      if inWs then collapseGo true rest else ' ' :: collapseGo true rest
    else c :: collapseGo false rest

/-- `re.sub(r"\s+", " ", s)`. -/
def collapseWs (l : List Char) : List Char := collapseGo false l

/-- The cleaned/collapsed/length-filtered candidate list built by
`extract_requirements` before dedup and truncation. -/
def req_candidates (description : String) : List String :=
  let cleaned := stripChars (description.data.filter fun c => c ≠ '\r')
  let items := (reqBulletCaptures cleaned).map fun c =>
    String.mk (collapseWs (stripChars c))
  items.filter fun it => 3 ≤ it.length && it.length ≤ 220

/-- `extract_requirements` from `job_engine/normalize.py` (the `max_items`
parameter defaults to 12 in the source and every caller uses the default). -/
def extract_requirements (description : String) (max_items : Nat) : List String :=
  if description = "" then []
  else (uniq_preserve_order (req_candidates description)).take max_items

/-! ## `arbeitnow.py` : rate-limit retry loop

The inner `while True` of `ArbeitnowSource.fetch` issues a request, breaks on
success, and on an `HTTPStatusError` retries after `backoff_s * 2**retries`
seconds iff the status is 429 and `retries < max_retries`; otherwise the
exception propagates.  The sequence of upstream outcomes is abstracted as a
function from the attempt number (= the current `retries` value) to an
outcome; sleeps are logged instead of performed; `backoff_s` (a Python float,
2.0 by default) is modelled as an exact rational. -/

/-- Outcome of one HTTP request, as the retry loop observes it. -/
inductive HttpOutcome (α : Type) where
  | ok (payload : α)
  | err (status : Nat)
deriving DecidableEq

/-- The retry loop.  `budget` stands for `max_retries - retries`, so the
source's guard `retries < max_retries` is exactly `0 < budget`; both `budget`
and `retries` are threaded so the delay `backoff_s * 2**retries` can be
computed.  Returns the sleep log and either the successful payload or the
status of the exception that propagates. -/
def retryGo {α : Type} (backoff_s : ℚ) (responses : Nat → HttpOutcome α) :
    Nat → Nat → List ℚ → List ℚ × Except Nat α
  | budget, retries, sleeps =>
    match responses retries with
    | HttpOutcome.ok a => (sleeps, Except.ok a)
    | HttpOutcome.err s =>
      if s = 429 then
        match budget with
        | b + 1 =>
          retryGo backoff_s responses b (retries + 1)
            (sleeps ++ [backoff_s * 2 ^ retries])
        | 0 => (sleeps, Except.error s)
      else (sleeps, Except.error s)

/-- One guarded request of `ArbeitnowSource.fetch` (the `while True` loop),
with `retries = 0` at entry as in the source. -/
def arbeitnow_request {α : Type} (max_retries : Nat) (backoff_s : ℚ)
    (responses : Nat → HttpOutcome α) : List ℚ × Except Nat α :=
  retryGo backoff_s responses max_retries 0 []

/-! ## Date-posted derivations

Remotive (`remotive.py`, fetch loop): `pub_dt = (j.get("publication_date") or
"").strip()`, then `date_posted = pub_dt[:10] if len(pub_dt) >= 10 else None`.

Arbeitnow (`arbeitnow.py`, `_parse_date_posted`): `None` passes through;
strings are stripped and parsed with `datetime.fromisoformat` (after the
`"Z" → "+00:00"` replacement), falling back to the leading 10 characters when
parsing fails and the string has at least 10 characters; numbers are treated
as epoch seconds (milliseconds when above `1e12`) and converted with
`datetime.fromtimestamp(·, timezone.utc)`, out-of-range values yielding
`None` via the caught exceptions.  `fromisoformat` is modelled in the strict
(CPython ≤ 3.10) shape `YYYY-MM-DD[*HH[:MM[:SS[.fff[fff]]]][±HH:MM[:SS]]]`,
which covers every format this API emits; numbers are modelled as exact
rationals. -/

/-- A Python `datetime.date` (proleptic Gregorian, year 1–9999). -/
structure PyDate where
  year : Nat
  month : Nat
  day : Nat
deriving DecidableEq

/-- Decimal digit value of a character, if it is a digit. -/
def digitVal (c : Char) : Option Nat :=
  if isDigitCh c then some (c.toNat - 48) else none

/-- Days in a month of the proleptic Gregorian calendar. -/
def daysInMonth (y m : Nat) : Nat :=
  if m = 2 then
    if y % 4 = 0 && (y % 100 ≠ 0 || y % 400 = 0) then 29 else 28
  else if m = 4 || m = 6 || m = 9 || m = 11 then 30
  else 31

/-- Parse exactly two digits, returning the value and the rest. -/
def twoDigits : List Char → Option (Nat × List Char)
  | a :: b :: rest =>
    match digitVal a, digitVal b with
    | some x, some y => some (10 * x + y, rest)
    | _, _ => none
  | _ => none

/-- Optional fractional seconds `.fff` or `.ffffff`. -/
def fracTail : List Char → Option (List Char)
  | '.' :: rest =>
    let ds := rest.takeWhile isDigitCh
    if ds.length = 3 || ds.length = 6 then some (rest.drop ds.length) else none
  | rest => some rest

/-- Optional UTC offset `±HH:MM[:SS]` ending the string. -/
def offsetOk : List Char → Bool
  | [] => true
  | c :: rest =>
    (c = '+' || c = '-') &&
      (match twoDigits rest with
       | some (oh, r1) =>
         oh ≤ 23 &&
           (match r1 with
            | ':' :: r2 =>
              match twoDigits r2 with
              | some (om, r3) =>
                om ≤ 59 &&
                  (match r3 with
                   | [] => true
                   | ':' :: r4 =>
                     match twoDigits r4 with
                     | some (os, r5) => os ≤ 59 && r5.isEmpty
                     | none => false
                   | _ => false)
              | none => false
            | _ => false)
       | none => false)

/-- The time-of-day part `HH[:MM[:SS[.fff[fff]]]]` plus optional offset. -/
def timeOk (l : List Char) : Bool :=
  match twoDigits l with
  | none => false
  | some (h, r1) =>
    h ≤ 23 &&
      (match r1 with
       | ':' :: r2 =>
         (match twoDigits r2 with
          | none => false
          | some (m, r3) =>
            m ≤ 59 &&
              (match r3 with
               | ':' :: r4 =>
                 (match twoDigits r4 with
                  | none => false
                  | some (s, r5) =>
                    s ≤ 59 &&
                      (match fracTail r5 with
                       | some r6 => offsetOk r6
                       | none => false))
               | r3' => offsetOk r3'))
       | r1' => offsetOk r1')

/-- `datetime.fromisoformat` (strict shape): a valid calendar date
`YYYY-MM-DD`, either alone or followed by a single separator character and a
valid time part.  Returns the `.date()` component. -/
def pyFromIsoformat (s : String) : Option PyDate :=
  match s.data with
  | y1 :: y2 :: y3 :: y4 :: '-' :: m1 :: m2 :: '-' :: d1 :: d2 :: rest =>
    match digitVal y1, digitVal y2, digitVal y3, digitVal y4,
        digitVal m1, digitVal m2, digitVal d1, digitVal d2 with
    | some a, some b, some c, some d, some e, some f, some g, some h =>
      let y := 1000 * a + 100 * b + 10 * c + d
      let mo := 10 * e + f
      let dy := 10 * g + h
      let timePartOk :=
        match rest with
        | [] => true
        | _sep :: t => timeOk t
      if 1 ≤ y ∧ 1 ≤ mo ∧ mo ≤ 12 ∧ 1 ≤ dy ∧ dy ≤ daysInMonth y mo ∧
          timePartOk = true then
        some ⟨y, mo, dy⟩
      else none
    | _, _, _, _, _, _, _, _ => none
  | _ => none

/-- Render one decimal digit. -/
def digitCh (n : Nat) : Char := Char.ofNat (48 + n % 10)

/-- `date.isoformat()`: always ten characters `YYYY-MM-DD` (Python years are
at most 9999, so four digits suffice). -/
def dateIso (d : PyDate) : String :=
  String.mk [digitCh (d.year / 1000), digitCh (d.year / 100),
    digitCh (d.year / 10), digitCh d.year, '-', digitCh (d.month / 10),
    digitCh d.month, '-', digitCh (d.day / 10), digitCh d.day]

/-- Civil-from-days conversion (standard era-based algorithm): the Gregorian
date of the day `z` days after 1970-01-01. -/
def civilFromDays (z0 : Int) : Int × Nat × Nat :=
  let z := z0 + 719468
  let era : Int := z.fdiv 146097
  let doe : Nat := (z - era * 146097).toNat
  let yoe : Nat := (doe - doe / 1460 + doe / 36524 - doe / 146096) / 365
  let doy : Nat := doe - (365 * yoe + yoe / 4 - yoe / 100)
  let mp : Nat := (5 * doy + 2) / 153
  let d : Nat := doy - (153 * mp + 2) / 5 + 1
  let m : Nat := if mp < 10 then mp + 3 else mp - 9
  let y : Int := (yoe : Int) + era * 400 + (if m ≤ 2 then 1 else 0)
  (y, m, d)

/-- `datetime.fromtimestamp(ts, timezone.utc).date()`: floor-divide the epoch
seconds into a day number and convert; timestamps whose year falls outside
Python's 1–9999 range raise (`OverflowError`/`OSError`/`ValueError`),
modelled as `none`. -/
def tsToDate (ts : ℚ) : Option PyDate :=
  -- `⌊ts / 86400⌋` computed exactly on the reduced fraction: for `den > 0`,
  -- `⌊num / (den * 86400)⌋` is the floor division of the numerator.
  let day : Int := Int.fdiv ts.num ((ts.den : Int) * 86400)
  let ymd := civilFromDays day
  if 1 ≤ ymd.1 ∧ ymd.1 ≤ 9999 then some ⟨ymd.1.toNat, ymd.2.1, ymd.2.2⟩
  else none

/-- A JSON value in the `created_at` position, as far as
`_parse_date_posted` distinguishes them. -/
inductive PyVal where
  | none
  | str (s : String)
  | num (q : ℚ)

/-- `ArbeitnowSource._parse_date_posted` from `arbeitnow.py`. -/
def arbeitnow_parse_date_posted : PyVal → Option String
  | PyVal.none => Option.none
  | PyVal.str s0 =>
    let s := pyStrip s0
    if s = "" then Option.none
    else
      match pyFromIsoformat (pyReplace s "Z" "+00:00") with
      | some d => some (dateIso d)
      | Option.none =>
        if 10 ≤ s.length then some (pyTake 10 s) else Option.none
  | PyVal.num q =>
    -- `ts > 1e12` on the reduced fraction, and `ts /= 1000` as an exact
    -- rational (`mkRat` renormalizes), avoiding any float rounding.
    let ts : ℚ :=
      if (1000000000000 : Int) * (q.den : Int) < q.num then
        mkRat q.num (q.den * 1000)
      else q
    match tsToDate ts with
    | some d => some (dateIso d)
    | Option.none => Option.none

/-- The `date_posted` derivation in `RemotiveSource.fetch`:
`pub_dt = (raw or "").strip()`, then the leading ten characters when the
result has at least ten characters, else `None`. -/
def remotive_date_posted (raw : Option String) : Option String :=
  if 10 ≤ (pyStrip (raw.getD "")).length then
    some (pyTake 10 (pyStrip (raw.getD "")))
  else none

/-- Is a string a syntactically valid ISO calendar date `YYYY-MM-DD`?
(Stated from the spec's words, as the comparison point for the date-posted
invariant.) -/
def validIsoDate (s : String) : Bool :=
  match s.data with
  | [a, b, c, d, '-', e, f, '-', g, h] =>
    match digitVal a, digitVal b, digitVal c, digitVal d,
        digitVal e, digitVal f, digitVal g, digitVal h with
    | some a', some b', some c', some d', some e', some f', some g', some h' =>
      let y := 1000 * a' + 100 * b' + 10 * c' + d'
      let mo := 10 * e' + f'
      let dy := 10 * g' + h'
      decide (1 ≤ mo ∧ mo ≤ 12 ∧ 1 ≤ dy ∧ dy ≤ daysInMonth y mo)
    | _, _, _, _, _, _, _, _ => false
  | _ => false

/-! ## `stable_id` : UTF-8 encoding and SHA-256

`stable_id(*parts)` joins the stripped non-`None` parts with `"|"`, UTF-8
encodes, hashes with SHA-256, and returns the lower-case hex digest.  The
hash is implemented in full (FIPS 180-4), on `Nat` with explicit reduction
modulo `2^32`. -/

/-- UTF-8 encoding of one code point, as a list of byte values. -/
def utf8Char (c : Char) : List Nat :=
  let n := c.toNat
  if n < 128 then [n]
  else if n < 2048 then [192 + n / 64, 128 + n % 64]
  else if n < 65536 then [224 + n / 4096, 128 + n / 64 % 64, 128 + n % 64]
  else [240 + n / 262144, 128 + n / 4096 % 64, 128 + n / 64 % 64, 128 + n % 64]

/-- UTF-8 encoding of a string. -/
def utf8Bytes (s : String) : List Nat := (s.data.map utf8Char).flatten

/-- Truncation to a 32-bit word. -/
def w32 (n : Nat) : Nat := n % 4294967296

/-- Right rotation of a 32-bit word by `k` (for `x < 2^32`). -/
def rotr (k x : Nat) : Nat := x / 2 ^ k + x % 2 ^ k * 2 ^ (32 - k)

/-- The SHA-256 state: eight 32-bit working variables. -/
structure H8 where
  a : Nat
  b : Nat
  c : Nat
  d : Nat
  e : Nat
  f : Nat
  g : Nat
  h : Nat

/-- SHA-256 initial hash value. -/
def sha256Init : H8 :=
  ⟨1779033703, 3144134277, 1013904242,
   2773480762, 1359893119, 2600822924,
   528734635, 1541459225⟩

/-- SHA-256 round constants. -/
def sha256K : List Nat :=
  [1116352408, 1899447441, 3049323471,
   3921009573, 961987163, 1508970993,
   2453635748, 2870763221, 3624381080,
   310598401, 607225278, 1426881987,
   1925078388, 2162078206, 2614888103,
   3248222580, 3835390401, 4022224774,
   264347078, 604807628, 770255983,
   1249150122, 1555081692, 1996064986,
   2554220882, 2821834349, 2952996808,
   3210313671, 3336571891, 3584528711,
   113926993, 338241895, 666307205,
   773529912, 1294757372, 1396182291,
   1695183700, 1986661051, 2177026350,
   2456956037, 2730485921, 2820302411,
   3259730800, 3345764771, 3516065817,
   3600352804, 4094571909, 275423344,
   430227734, 506948616, 659060556,
   883997877, 958139571, 1322822218,
   1537002063, 1747873779, 1955562222,
   2024104815, 2227730452, 2361852424,
   2428436474, 2756734187, 3204031479,
   3329325298]

/-- Message padding: append `0x80`, zero bytes to 56 mod 64, then the
big-endian 64-bit bit length. -/
def sha256Pad (msg : List Nat) : List Nat :=
  let len := msg.length
  let zeros := (119 - len % 64) % 64
  let bits := 8 * len
  msg ++ [128] ++ List.replicate zeros 0 ++
    [bits / 2 ^ 56 % 256, bits / 2 ^ 48 % 256, bits / 2 ^ 40 % 256,
     bits / 2 ^ 32 % 256, bits / 2 ^ 24 % 256, bits / 2 ^ 16 % 256,
     bits / 2 ^ 8 % 256, bits % 256]

/-- Split the padded message into 64-byte blocks (fueled by the number of
blocks). -/
def toBlocks : Nat → List Nat → List (List Nat)
  | 0, _ => []
  | _ + 1, [] => []
  | fuel + 1, l => l.take 64 :: toBlocks fuel (l.drop 64)

/-- Big-endian 32-bit words of one 64-byte block (fueled). -/
def blockWords : Nat → List Nat → List Nat
  | 0, _ => []
  | _ + 1, [] => []
  | fuel + 1, l =>
    (l.take 4).foldl (fun acc b => acc * 256 + b) 0 :: blockWords fuel (l.drop 4)

/-- Message-schedule extension: prepend `w[i] = σ1 w[i-2] + w[i-7] +
σ0 w[i-15] + w[i-16] (mod 2^32)` to the reversed word list, `steps` times. -/
def schedGo : Nat → List Nat → List Nat
  | 0, rws => rws
  | steps + 1, rws =>
    let s0 :=
      let x := rws.getD 14 0
      Nat.xor (rotr 7 x) (Nat.xor (rotr 18 x) (x / 2 ^ 3))
    let s1 :=
      let x := rws.getD 1 0
      Nat.xor (rotr 17 x) (Nat.xor (rotr 19 x) (x / 2 ^ 10))
    schedGo steps (w32 (s1 + rws.getD 6 0 + s0 + rws.getD 15 0) :: rws)

/-- All 64 schedule words of a block. -/
def sha256Schedule (block : List Nat) : List Nat :=
  (schedGo 48 (blockWords 16 block).reverse).reverse

/-- One SHA-256 compression round. -/
def sha256Round (st : H8) (kw : Nat × Nat) : H8 :=
  let S1 := Nat.xor (rotr 6 st.e) (Nat.xor (rotr 11 st.e) (rotr 25 st.e))
  let ch := Nat.xor (Nat.land st.e st.f)
    (Nat.land (Nat.xor st.e 4294967295) st.g)
  let temp1 := w32 (st.h + S1 + ch + kw.1 + kw.2)
  let S0 := Nat.xor (rotr 2 st.a) (Nat.xor (rotr 13 st.a) (rotr 22 st.a))
  let maj := Nat.xor (Nat.land st.a st.b)
    (Nat.xor (Nat.land st.a st.c) (Nat.land st.b st.c))
  let temp2 := w32 (S0 + maj)
  ⟨w32 (temp1 + temp2), st.a, st.b, st.c, w32 (st.d + temp1), st.e, st.f, st.g⟩

/-- Process one 64-byte block. -/
def sha256Block (st : H8) (block : List Nat) : H8 :=
  let ws := sha256Schedule block
  let t := (sha256K.zip ws).foldl sha256Round st
  ⟨w32 (st.a + t.a), w32 (st.b + t.b), w32 (st.c + t.c), w32 (st.d + t.d),
   w32 (st.e + t.e), w32 (st.f + t.f), w32 (st.g + t.g), w32 (st.h + t.h)⟩

/-- Big-endian bytes of a 32-bit word. -/
def wordBytes (x : Nat) : List Nat :=
  [x / 2 ^ 24 % 256, x / 2 ^ 16 % 256, x / 2 ^ 8 % 256, x % 256]

/-- SHA-256 digest (32 byte values) of a byte list. -/
def sha256 (msg : List Nat) : List Nat :=
  let padded := sha256Pad msg
  let final := (toBlocks (padded.length / 64) padded).foldl sha256Block sha256Init
  wordBytes final.a ++ wordBytes final.b ++ wordBytes final.c ++
    wordBytes final.d ++ wordBytes final.e ++ wordBytes final.f ++
    wordBytes final.g ++ wordBytes final.h

/-- Lower-case hex digit. -/
def hexDigit (n : Nat) : Char := "0123456789abcdef".data.getD n '0'

/-- Lower-case hex rendering of one byte. -/
def hexByte (b : Nat) : List Char := [hexDigit (b / 16 % 16), hexDigit (b % 16)]

/-- `hashlib.sha256(·).hexdigest()` of a byte list. -/
def hexdigest (bytes : List Nat) : String :=
  String.mk ((bytes.map hexByte).flatten)

/-- `stable_id` from `job_engine/utils.py`: strip each non-`None` part, join
with `"|"`, UTF-8 encode, SHA-256, hex digest.  The Python varargs tuple is
modelled as a list of optional strings. -/
def stable_id (parts : List (Option String)) : String :=
  hexdigest (sha256 (utf8Bytes
    (String.intercalate "|" ((parts.filterMap id).map pyStrip))))

/-! ## Helper lemmas: merge pipeline -/

theorem emit_len_le (o : Option Rec) (p : List Rec × List String) :
    (emit o p).1.length ≤ p.1.length + 1 := by
  cases o with
  | none => simp [emit]
  | some j =>
    simp only [emit]
    split
    · simp
    · simp

theorem emit_len_ge (o : Option Rec) (p : List Rec × List String) :
    p.1.length ≤ (emit o p).1.length := by
  cases o with
  | none => simp [emit]
  | some j =>
    simp only [emit]
    split
    · simp
    · simp

theorem emit_inv (o : Option Rec) (p : List Rec × List String)
    (h1 : (p.1.map Rec.id).Nodup) (h2 : ∀ r ∈ p.1, r.id ∈ p.2) :
    ((emit o p).1.map Rec.id).Nodup ∧
      ∀ r ∈ (emit o p).1, r.id ∈ (emit o p).2 := by
  cases o with
  | none => exact ⟨h1, h2⟩
  | some j =>
    simp only [emit]
    split
    · exact ⟨h1, h2⟩
    · rename_i hj
      constructor
      · rw [List.map_append]
        simp only [List.map_cons, List.map_nil]
        rw [List.nodup_append]
        refine ⟨h1, List.nodup_singleton _, ?_⟩
        intro x hx hx'
        simp only [List.mem_singleton] at hx'
        subst hx'
        obtain ⟨r, hr, hrid⟩ := List.mem_map.mp hx
        exact hj (hrid ▸ h2 r hr)
      · intro r hr
        rcases List.mem_append.mp hr with hr' | hr'
        · exact List.mem_cons_of_mem _ (h2 r hr')
        · simp only [List.mem_singleton] at hr'
          subst hr'
          exact List.mem_cons_self _ _

theorem interGo_len (maxLen : Nat) (A B : List Rec) :
    ∀ fuel i p, p.1.length ≤ maxLen →
      (interGo maxLen A B fuel i p).1.length ≤ maxLen := by
  intro fuel
  induction fuel with
  | zero => intro i p hp; simpa [interGo] using hp
  | succ n ih =>
    intro i p hp
    simp only [interGo]
    split
    · simpa using hp
    · rename_i hcond
      have hlt : p.1.length < maxLen := by
        rcases Nat.lt_or_ge p.1.length maxLen with h | h
        · exact h
        · exact absurd (Or.inl h) hcond
      split
      · rename_i hbrk
        have := emit_len_le A[i]? p
        simpa using Nat.le_trans this hlt
      · rename_i hbrk
        apply ih
        have h1 : (emit A[i]? p).1.length < maxLen := Nat.lt_of_not_le hbrk
        have := emit_len_le B[i]? (emit A[i]? p)
        exact Nat.le_trans this h1

theorem interGo_inv (maxLen : Nat) (A B : List Rec) :
    ∀ fuel i p, (p.1.map Rec.id).Nodup → (∀ r ∈ p.1, r.id ∈ p.2) →
      ((interGo maxLen A B fuel i p).1.map Rec.id).Nodup ∧
        ∀ r ∈ (interGo maxLen A B fuel i p).1,
          r.id ∈ (interGo maxLen A B fuel i p).2.1 := by
  intro fuel
  induction fuel with
  | zero => intro i p h1 h2; exact ⟨h1, h2⟩
  | succ n ih =>
    intro i p h1 h2
    simp only [interGo]
    split
    · exact ⟨h1, h2⟩
    · obtain ⟨g1, g2⟩ := emit_inv A[i]? p h1 h2
      split
      · exact ⟨g1, g2⟩
      · obtain ⟨k1, k2⟩ := emit_inv B[i]? (emit A[i]? p) g1 g2
        exact ih (i + 1) _ k1 k2

theorem interGo_idx (maxLen : Nat) (A B : List Rec) :
    ∀ fuel i p, max A.length B.length ≤ fuel + i →
      (interGo maxLen A B fuel i p).1.length < maxLen →
      A.length ≤ (interGo maxLen A B fuel i p).2.2 ∧
        B.length ≤ (interGo maxLen A B fuel i p).2.2 := by
  intro fuel
  induction fuel with
  | zero =>
    intro i p hfuel _
    simp only [interGo]
    constructor
    · exact Nat.le_trans (Nat.le_max_left _ _) (by simpa using hfuel)
    · exact Nat.le_trans (Nat.le_max_right _ _) (by simpa using hfuel)
  | succ n ih =>
    intro i p hfuel
    simp only [interGo]
    split
    · rename_i hcond
      intro hlen
      rcases hcond with hfull | hdone
      · exact absurd hlen (by simpa using Nat.not_lt.mpr hfull)
      · exact hdone
    · rename_i hcond
      split
      · rename_i hbrk
        intro hlen
        exact absurd hlen (by simpa using Nat.not_lt.mpr hbrk)
      · rename_i hbrk
        have hfuel' : max A.length B.length ≤ n + (i + 1) := by omega
        exact ih (i + 1) _ hfuel'

theorem fillGo_len (maxLen : Nat) :
    ∀ rest jobs seen, jobs.length < maxLen →
      (fillGo maxLen rest jobs seen).length ≤ maxLen := by
  intro rest
  induction rest with
  | nil => intro jobs seen h; exact Nat.le_of_lt h
  | cons j tl ih =>
    intro jobs seen h
    simp only [fillGo]
    split
    · exact ih jobs seen h
    · split
      · rename_i hfull
        simpa using h
      · rename_i hfull
        exact ih _ _ (by simpa using Nat.lt_of_not_le hfull)

theorem fillGo_inv (maxLen : Nat) :
    ∀ rest jobs seen, (jobs.map Rec.id).Nodup → (∀ r ∈ jobs, r.id ∈ seen) →
      ((fillGo maxLen rest jobs seen).map Rec.id).Nodup := by
  intro rest
  induction rest with
  | nil => intro jobs seen h1 _; exact h1
  | cons j tl ih =>
    intro jobs seen h1 h2
    simp only [fillGo]
    split
    · exact ih jobs seen h1 h2
    · rename_i hj
      have hnd : ((jobs ++ [j]).map Rec.id).Nodup := by
        rw [List.map_append]
        simp only [List.map_cons, List.map_nil]
        rw [List.nodup_append]
        refine ⟨h1, List.nodup_singleton _, ?_⟩
        intro x hx hx'
        simp only [List.mem_singleton] at hx'
        subst hx'
        obtain ⟨r, hr, hrid⟩ := List.mem_map.mp hx
        exact hj (hrid ▸ h2 r hr)
      split
      · exact hnd
      · apply ih
        · exact hnd
        · intro r hr
          rcases List.mem_append.mp hr with hr' | hr'
          · exact List.mem_cons_of_mem _ (h2 r hr')
          · simp only [List.mem_singleton] at hr'
            subst hr'
            exact List.mem_cons_self _ _

theorem interleave_phase_len (maxLen : Nat) (A B : List Rec) :
    (interleave_phase maxLen A B).1.length ≤ maxLen :=
  interGo_len maxLen A B (max A.length B.length) 0 ([], []) (by simp)

theorem interleave_phase_inv (maxLen : Nat) (A B : List Rec) :
    ((interleave_phase maxLen A B).1.map Rec.id).Nodup ∧
      ∀ r ∈ (interleave_phase maxLen A B).1,
        r.id ∈ (interleave_phase maxLen A B).2.1 :=
  interGo_inv maxLen A B (max A.length B.length) 0 ([], []) (by simp)
    (by simp)

theorem interleave_phase_idx (maxLen : Nat) (A B : List Rec)
    (h : (interleave_phase maxLen A B).1.length < maxLen) :
    A.length ≤ (interleave_phase maxLen A B).2.2 ∧
      B.length ≤ (interleave_phase maxLen A B).2.2 :=
  interGo_idx maxLen A B (max A.length B.length) 0 ([], []) (by omega) h

/-! ## Claims C4, C5, C10 : the merge/dedup pipeline -/

/-- Claim C4: for the merge step with source A producing `[a1, a2, a3]` and
source B producing `[b1, b2]` — all five with distinct identifiers — and
`limit = 4`, the output is exactly `[a1, b1, a2, b2]`: interleaved
turn-by-turn, no duplicates, length 4, order preserved within each source. -/
theorem C4_merge_concrete_interleaving :
    merge_jobs 4 [ra1, ra2, ra3] [rb1, rb2] = [ra1, rb1, ra2, rb2] ∧
      ([ra1, ra2, ra3, rb1, rb2].map Rec.id).Nodup := by decide

/-- Claim C5: for every pair of input record lists and every (non-negative)
output limit, the merge/dedup pipeline's output is never longer than the
limit and contains no two records with the same identifier. -/
theorem C5_merge_bounded_and_duplicate_free (maxLen : Nat) (A B : List Rec) :
    (merge_jobs maxLen A B).length ≤ maxLen ∧
      ((merge_jobs maxLen A B).map Rec.id).Nodup := by
  obtain ⟨hnd, hsub⟩ := interleave_phase_inv maxLen A B
  by_cases h : (interleave_phase maxLen A B).1.length < maxLen
  · rw [merge_jobs, if_pos h]
    exact ⟨fillGo_len maxLen _ _ _ h, fillGo_inv maxLen _ _ _ hnd hsub⟩
  · rw [merge_jobs, if_neg h]
    exact ⟨interleave_phase_len maxLen A B, hnd⟩

/-- Claim C10: the post-interleave "append remaining" phase never contributes
a record — whenever the interleave loop exits with fewer than `limit` records
the shared index is already past the end of both inputs, so the full merge
equals the interleave phase alone, for every pair of inputs and limit. -/
theorem C10_fill_phase_never_contributes (maxLen : Nat) (A B : List Rec) :
    merge_jobs maxLen A B = (interleave_phase maxLen A B).1 ∧
      ((interleave_phase maxLen A B).1.length < maxLen →
        A.length ≤ (interleave_phase maxLen A B).2.2 ∧
          B.length ≤ (interleave_phase maxLen A B).2.2) := by
  refine ⟨?_, interleave_phase_idx maxLen A B⟩
  by_cases h : (interleave_phase maxLen A B).1.length < maxLen
  · rw [merge_jobs, if_pos h]
    obtain ⟨hA, hB⟩ := interleave_phase_idx maxLen A B h
    rw [List.drop_eq_nil_of_le hA, List.drop_eq_nil_of_le hB]
    rfl
  · rw [merge_jobs, if_neg h]

/-- Witness for C10 at a concrete input (`A = [a1]`, `B = []`, `limit = 5`):
the loop exits with one record (fewer than the limit) and the index is
already past both inputs, so the fill phase appends nothing. -/
theorem C10_fill_phase_never_contributes_witness :
    merge_jobs 5 [ra1] [] = (interleave_phase 5 [ra1] []).1 ∧
      1 ≤ (interleave_phase 5 [ra1] []).2.2 ∧
        0 ≤ (interleave_phase 5 [ra1] []).2.2 := by
  refine ⟨(C10_fill_phase_never_contributes 5 [ra1] []).1, ?_⟩
  have h := (C10_fill_phase_never_contributes 5 [ra1] []).2 (by decide)
  simpa using h

/-! ## Claims C2, C3 : keyword-matching heuristics -/

/-- Claim C2 (code evaluation at the failing inputs): the inclusion keywords
`"FAE"` and `"Field Application Engineer"` are present in `INCLUDE_KEYWORDS`,
yet never produce a match in any casing — the functions compare the keyword
verbatim against the *lower-cased* text, so a keyword containing upper-case
letters cannot occur in it.  In particular the extractor returns no keyword
and the role filter rejects texts consisting exactly of these keywords. -/
theorem C2_uppercase_keywords_never_match :
    "FAE" ∈ INCLUDE_KEYWORDS ∧
      "Field Application Engineer" ∈ INCLUDE_KEYWORDS ∧
      extract_function_keywords "FAE" = [] ∧
      extract_function_keywords "Field Application Engineer needed (FAE)" = [] ∧
      is_electronics_role "FAE" "Field Application Engineer" = false := by
  decide

/-- Claim C3 (counterexample): with title `"Chairman"` and description
`"Threshold hardware engineer"`, the combined blob contains `"chairman"`,
contains the inclusion keyword `"hardware"`, and contains no exclusion term
as a whole word (`"hr"` occurs only inside `"threshold"`); yet
`is_electronics_role` rejects it, because exclusion matching is plain
substring matching. -/
theorem C3_counterexample_substring_exclusion :
    subStr "chairman" (roleBlob "Chairman" "Threshold hardware engineer") = true ∧
      (INCLUDE_KEYWORDS.any fun kw =>
        subStr kw (roleBlob "Chairman" "Threshold hardware engineer")) = true ∧
      (EXCLUDE_KEYWORDS.all fun kw =>
        !wholeWord kw (roleBlob "Chairman" "Threshold hardware engineer")) = true ∧
      is_electronics_role "Chairman" "Threshold hardware engineer" = false := by
  decide

/-- Claim C3 (amended): `"hr"` does not match inside `"chairman"` — but only
because `"chairman"` does not contain `"hr"` as a substring; the
role-relevance filter uses plain substring matching for exclusions, not
word-boundary matching.  A text that contains at least one inclusion keyword
and no exclusion term *as a substring* is accepted. -/
theorem C3_amended_substring_not_word_boundary :
    subStr "hr" "chairman" = false ∧
      ∀ title description,
        (EXCLUDE_KEYWORDS.all fun kw =>
          !subStr kw (roleBlob title description)) = true →
        (INCLUDE_KEYWORDS.any fun kw =>
          subStr kw (roleBlob title description)) = true →
        is_electronics_role title description = true := by
  refine ⟨by decide, ?_⟩
  intro title description hexc hinc
  rw [is_electronics_role]
  have hany : (EXCLUDE_KEYWORDS.any fun kw =>
      subStr kw (roleBlob title description)) = false := by
    rw [List.any_eq_false]
    intro kw hkw
    have := (List.all_eq_true.mp hexc) kw hkw
    simpa using this
  rw [hany]
  simpa using hinc

/-- Witness for the amended C3 at a concrete input: title `"Chairman"`,
description `"hardware"` is accepted. -/
theorem C3_amended_substring_not_word_boundary_witness :
    is_electronics_role "Chairman" "hardware" = true :=
  C3_amended_substring_not_word_boundary.2 "Chairman" "hardware"
    (by decide) (by decide)

/-! ## Claim C6 : seniority inference -/

theorem inferGo_eq_find (t : String) :
    ∀ L : List (List (List RTok) × String),
      inferGo L t =
        ((L.find? fun pl => reSearch pl.1 t).map Prod.snd).getD "unknown" := by
  intro L
  induction L with
  | nil => rfl
  | cons pl rest ih =>
    simp only [inferGo, List.find?]
    by_cases h : reSearch pl.1 t
    · rw [if_pos h, h]
      rfl
    · rw [if_neg h, Bool.not_eq_true] at *
      rw [h]
      simpa using ih

/-- Claim C6: `infer_seniority` evaluates the fixed ordered (pattern, label)
rule list against the lower-cased title and returns the label of the first
matching rule; a title matching no pattern yields `"unknown"`, so the result
is always in the closed seniority enumeration; and `"Senior Staff Engineer"`
matches exactly the `senior` rule (first) and the `staff` rule (later), hence
resolves to `"senior"`. -/
theorem C6_infer_seniority_first_match :
    (∀ t, infer_seniority t =
        ((SENIORITY_PATTERNS.find? fun pl =>
          reSearch pl.1 (pyLower t)).map Prod.snd).getD "unknown") ∧
      (∀ t, infer_seniority t ∈
        ["intern", "junior", "mid", "senior", "staff", "principal", "manager",
         "director", "vp", "cxo", "unknown"]) ∧
      (∀ t, (SENIORITY_PATTERNS.all fun pl =>
          !reSearch pl.1 (pyLower t)) = true →
        infer_seniority t = "unknown") ∧
      ((SENIORITY_PATTERNS.filter fun pl =>
          reSearch pl.1 (pyLower "Senior Staff Engineer")).map Prod.snd =
        ["senior", "staff"]) ∧
      infer_seniority "Senior Staff Engineer" = "senior" := by
  have hchar : ∀ t, infer_seniority t =
      ((SENIORITY_PATTERNS.find? fun pl =>
        reSearch pl.1 (pyLower t)).map Prod.snd).getD "unknown" := by
    intro t
    exact inferGo_eq_find (pyLower t) SENIORITY_PATTERNS
  refine ⟨hchar, ?_, ?_, by decide, by decide⟩
  · intro t
    rw [hchar]
    cases hf : SENIORITY_PATTERNS.find? fun pl => reSearch pl.1 (pyLower t) with
    | none => simp
    | some pl =>
      have hmem : pl ∈ SENIORITY_PATTERNS := List.mem_of_find?_eq_some hf
      have hlab : ∀ q ∈ SENIORITY_PATTERNS,
          q.2 ∈ ["intern", "junior", "mid", "senior", "staff", "principal",
            "manager", "director", "vp", "cxo", "unknown"] := by decide
      simpa using hlab pl hmem
  · intro t hall
    rw [hchar]
    have : (SENIORITY_PATTERNS.find? fun pl => reSearch pl.1 (pyLower t)) =
        none := by
      rw [List.find?_eq_none]
      intro pl hpl
      have := (List.all_eq_true.mp hall) pl hpl
      simpa using this
    rw [this]
    rfl

/-- Witness for C6: the first-match characterization, the no-match default,
and the concrete resolution, each applied at a concrete title. -/
theorem C6_infer_seniority_first_match_witness :
    infer_seniority "Chocolate Taster" = "unknown" ∧
      infer_seniority "Senior Staff Engineer" = "senior" :=
  ⟨C6_infer_seniority_first_match.2.2.1 "Chocolate Taster" (by decide),
    C6_infer_seniority_first_match.2.2.2.2⟩

/-! ## Claim C7 : requirement extraction -/

theorem uniqGo_sublist : ∀ l seen : List String, (uniqGo seen l).Sublist l := by
  intro l
  induction l with
  | nil => intro seen; simp [uniqGo]
  | cons it rest ih =>
    intro seen
    simp only [uniqGo]
    split
    · exact (ih seen).cons it
    · split
      · exact (ih seen).cons it
      · exact (ih _).cons₂ it

theorem uniqGo_keys : ∀ l seen : List String,
    ((uniqGo seen l).map uniqKey).Nodup ∧
      ∀ x ∈ uniqGo seen l, uniqKey x ∉ seen := by
  intro l
  induction l with
  | nil => intro seen; simp [uniqGo]
  | cons it rest ih =>
    intro seen
    simp only [uniqGo]
    split
    · exact ih seen
    · split
      · exact ih seen
      · rename_i hempty hseen
        obtain ⟨ihn, ihs⟩ := ih (uniqKey it :: seen)
        constructor
        · simp only [List.map_cons, List.nodup_cons]
          refine ⟨?_, ihn⟩
          intro hmem
          obtain ⟨x, hx, hxk⟩ := List.mem_map.mp hmem
          exact (ihs x hx) (by rw [hxk]; exact List.mem_cons_self _ _)
        · intro x hx
          rcases List.mem_cons.mp hx with h | h
          · subst h; exact hseen
          · intro hk
            exact (ihs x h) (List.mem_cons_of_mem _ hk)

/-- Claim C7: for every description, `extract_requirements` returns at most
12 items, each between 3 and 220 characters after whitespace collapsing and
trimming, with pairwise distinct case-insensitive keys (strip + lower),
appearing in first-seen order (a sublist of the cleaned candidate list); an
empty description yields the empty list, never an error. -/
theorem C7_extract_requirements_bounds (d : String) :
    (extract_requirements d 12).length ≤ 12 ∧
      (∀ it ∈ extract_requirements d 12,
        3 ≤ it.length ∧ it.length ≤ 220) ∧
      ((extract_requirements d 12).map uniqKey).Nodup ∧
      (extract_requirements d 12).Sublist (req_candidates d) ∧
      extract_requirements "" 12 = [] := by
  by_cases hd : d = ""
  · subst hd
    refine ⟨?_, ?_, ?_, ?_, rfl⟩ <;> simp [extract_requirements]
  · have hx : extract_requirements d 12 =
        (uniqGo [] (req_candidates d)).take 12 := by
      rw [extract_requirements, if_neg hd]
      rfl
    have hmemc : ∀ it ∈ extract_requirements d 12, it ∈ req_candidates d := by
      intro it hit
      rw [hx] at hit
      exact (uniqGo_sublist _ _).subset ((List.take_sublist _ _).subset hit)
    refine ⟨?_, ?_, ?_, ?_, rfl⟩
    · rw [hx, List.length_take]
      exact Nat.min_le_left _ _
    · intro it hit
      have hc := hmemc it hit
      rw [req_candidates] at hc
      have := (List.mem_filter.mp hc).2
      simpa using this
    · rw [hx]
      exact ((uniqGo_keys (req_candidates d) []).1).sublist
        ((List.take_sublist _ _).map uniqKey)
    · rw [hx]
      exact (List.take_sublist _ _).trans (uniqGo_sublist _ _)

/-- Witness for C7 at a concrete description with two bullets: the extracted
item `"foo"` satisfies the length bounds, and the empty description yields
the empty list. -/
theorem C7_extract_requirements_bounds_witness :
    (3 ≤ ("foo" : String).length ∧ ("foo" : String).length ≤ 220) ∧
      extract_requirements "" 12 = [] :=
  ⟨(C7_extract_requirements_bounds "- foo\n- bar").2.1 "foo" (by decide),
    (C7_extract_requirements_bounds "x").2.2.2.2⟩

/-! ## Claim C8 : rate-limit retry with exponential backoff -/

theorem retryGo_all429 {α : Type} (b : ℚ) (responses : Nat → HttpOutcome α) :
    ∀ budget retries sleeps,
      (∀ k, retries ≤ k → k ≤ retries + budget →
        responses k = HttpOutcome.err 429) →
      retryGo b responses budget retries sleeps =
        (sleeps ++ (List.range' retries budget).map fun k => b * 2 ^ k,
          Except.error 429) := by
  intro budget
  induction budget with
  | zero =>
    intro retries sleeps h
    rw [retryGo, h retries (Nat.le_refl _) (Nat.le_refl _)]
    simp
  | succ n ih =>
    intro retries sleeps h
    rw [retryGo, h retries (Nat.le_refl _) (by omega)]
    simp only [if_pos rfl]
    rw [ih (retries + 1) (sleeps ++ [b * 2 ^ retries])
      (fun k hk1 hk2 => h k (by omega) (by omega))]
    simp [List.range'_succ]

theorem retryGo_early_err {α : Type} (b : ℚ) (responses : Nat → HttpOutcome α)
    (s : Nat) (hs : s ≠ 429) :
    ∀ k budget retries sleeps, k ≤ budget →
      (∀ j, retries ≤ j → j < retries + k →
        responses j = HttpOutcome.err 429) →
      responses (retries + k) = HttpOutcome.err s →
      retryGo b responses budget retries sleeps =
        (sleeps ++ (List.range' retries k).map fun j => b * 2 ^ j,
          Except.error s) := by
  intro k
  induction k with
  | zero =>
    intro budget retries sleeps _ _ hresp
    simp only [Nat.add_zero] at hresp
    rw [retryGo, hresp]
    simp [hs]
  | succ n ih =>
    intro budget retries sleeps hb hpre hresp
    cases budget with
    | zero => omega
    | succ m =>
      rw [retryGo, hpre retries (Nat.le_refl _) (by omega)]
      simp only [if_pos rfl]
      rw [ih m (retries + 1) (sleeps ++ [b * 2 ^ retries]) (by omega)
        (fun j hj1 hj2 => hpre j (by omega) (by omega))
        (by rw [show retries + 1 + n = retries + (n + 1) from by omega]; exact hresp)]
      simp [List.range'_succ]

theorem retryGo_sleeps_len {α : Type} (b : ℚ)
    (responses : Nat → HttpOutcome α) :
    ∀ budget retries sleeps,
      (retryGo b responses budget retries sleeps).1.length ≤
        sleeps.length + budget := by
  intro budget
  induction budget with
  | zero =>
    intro retries sleeps
    rw [retryGo]
    cases hre : responses retries with
    | ok a => simp
    | err s =>
      by_cases h429 : s = 429
      · simp [h429]
      · simp [h429]
  | succ n ih =>
    intro retries sleeps
    rw [retryGo]
    cases hre : responses retries with
    | ok a => simp
    | err s =>
      by_cases h429 : s = 429
      · have h := ih (retries + 1) (sleeps ++ [b * 2 ^ retries])
        simp only [List.length_append, List.length_cons, List.length_nil] at h
        simp [h429]
        omega
      · simp [h429]

/-- Claim C8: on persistent 429 responses the Arbeitnow request loop sleeps
`backoff_s * 2^attempt` for exactly `max_retries` retries and then raises the
429 as fatal; a non-429 HTTP error (after any run of 429s within the budget)
raises immediately; and the loop never makes more than `max_retries + 1`
requests (its sleep log is bounded by `max_retries`), so it cannot retry
indefinitely and never ends with a partial/silent success. -/
theorem C8_retry_backoff_bounded {α : Type} (mr : Nat) (b : ℚ)
    (responses : Nat → HttpOutcome α) :
    ((∀ k, responses k = HttpOutcome.err 429) →
      arbeitnow_request mr b responses =
        ((List.range mr).map fun k => b * 2 ^ k, Except.error 429)) ∧
      (∀ k s, s ≠ 429 → k ≤ mr →
        (∀ j, j < k → responses j = HttpOutcome.err 429) →
        responses k = HttpOutcome.err s →
        arbeitnow_request mr b responses =
          ((List.range k).map fun j => b * 2 ^ j, Except.error s)) ∧
      (arbeitnow_request mr b responses).1.length ≤ mr := by
  refine ⟨?_, ?_, ?_⟩
  · intro hall
    have h := retryGo_all429 b responses mr 0 [] fun k _ _ => hall k
    simpa [arbeitnow_request, List.range_eq_range'] using h
  · intro k s hs hk hpre hkresp
    have h := retryGo_early_err b responses s hs k mr 0 [] hk
      (fun j _ hj => hpre j (by omega)) (by simpa using hkresp)
    simpa [arbeitnow_request, List.range_eq_range'] using h
  · simpa [arbeitnow_request] using retryGo_sleeps_len b responses mr 0 []

/-- Witness for C8 with the source's default configuration
(`max_retries = 3`, `backoff_s = 2`): persistent 429s sleep 2, 4, 8 seconds
and then raise 429; an immediate 500 raises at once with no sleeps. -/
theorem C8_retry_backoff_bounded_witness :
    arbeitnow_request 3 (2 : ℚ)
        (fun _ => (HttpOutcome.err 429 : HttpOutcome Unit)) =
      ([2, 4, 8], Except.error 429) ∧
      arbeitnow_request 3 (2 : ℚ)
          (fun _ => (HttpOutcome.err 500 : HttpOutcome Unit)) =
        ([], Except.error 500) := by
  constructor
  · have h := (C8_retry_backoff_bounded 3 (2 : ℚ)
      (fun _ => (HttpOutcome.err 429 : HttpOutcome Unit))).1 fun _ => rfl
    rw [h]
    norm_num [List.range_succ]
  · have h := (C8_retry_backoff_bounded 3 (2 : ℚ)
      (fun _ => (HttpOutcome.err 500 : HttpOutcome Unit))).2.1 0 500
      (by norm_num) (by norm_num) (fun j hj => absurd hj (by omega)) rfl
    rw [h]
    norm_num

/-! ## Claim C9 : stable identifiers -/

theorem filterMap_id_map_strip (ps : List (Option String)) :
    (ps.filterMap id).map pyStrip =
      (ps.map (Option.map pyStrip)).filterMap id := by
  induction ps with
  | nil => rfl
  | cons o tl ih =>
    cases o with
    | none => simpa using ih
    | some s => simpa using ih

theorem sha256_length (msg : List Nat) : (sha256 msg).length = 32 := by
  simp [sha256, wordBytes]

theorem hexDigit_mem (m : Nat) (hm : m < 16) :
    hexDigit m ∈ ("0123456789abcdef" : String).data := by
  interval_cases m <;> decide

theorem hexParts_length (bytes : List Nat) :
    ((bytes.map hexByte).flatten).length = 2 * bytes.length := by
  induction bytes with
  | nil => simp
  | cons b tl ih =>
    simp only [List.map_cons, List.flatten_cons, List.length_append, ih,
      hexByte, List.length_cons, List.length_nil, List.length_map]
    omega

/-- Claim C9: `stable_id` is deterministic and trim-invariant — its output
depends only on the stripped parts, so surrounding whitespace is irrelevant
(and identical part lists trivially give identical output); `None` parts are
omitted from the join; and the result is a fixed-length (64-character)
lower-case hexadecimal digest of the 256-bit hash. -/
theorem C9_stable_id_trim_invariant_hex :
    (∀ ps qs : List (Option String),
      ps.map (Option.map pyStrip) = qs.map (Option.map pyStrip) →
      stable_id ps = stable_id qs) ∧
      (∀ l r : List (Option String),
        stable_id (l ++ none :: r) = stable_id (l ++ r)) ∧
      (∀ ps, (stable_id ps).length = 64 ∧
        ∀ c ∈ (stable_id ps).data, c ∈ ("0123456789abcdef" : String).data) := by
  refine ⟨?_, ?_, ?_⟩
  · intro ps qs h
    rw [stable_id, stable_id, filterMap_id_map_strip ps,
      filterMap_id_map_strip qs, h]
  · intro l r
    rw [stable_id, stable_id, List.filterMap_append, List.filterMap_append]
    simp
  · intro ps
    constructor
    · show ((sha256 (utf8Bytes (String.intercalate "|"
          ((ps.filterMap id).map pyStrip)))).map hexByte).flatten.length = 64
      rw [hexParts_length, sha256_length]
    · intro c hc
      have hc' : c ∈ ((sha256 (utf8Bytes (String.intercalate "|"
          ((ps.filterMap id).map pyStrip)))).map hexByte).flatten := hc
      obtain ⟨l, hl, hcl⟩ := List.mem_flatten.mp hc'
      obtain ⟨bv, _, rfl⟩ := List.mem_map.mp hl
      simp only [hexByte, List.mem_cons, List.mem_singleton,
        List.not_mem_nil, or_false] at hcl
      rcases hcl with rfl | rfl
      · exact hexDigit_mem _ (Nat.mod_lt _ (by norm_num))
      · exact hexDigit_mem _ (Nat.mod_lt _ (by norm_num))

/-- Witness for C9: trim-invariance at a concrete pair of part lists,
`None`-omission at a concrete list, and the 64-character digest length at a
concrete input. -/
theorem C9_stable_id_trim_invariant_hex_witness :
    stable_id [some " a "] = stable_id [some "a"] ∧
      stable_id [some "a", none, some "b"] = stable_id [some "a", some "b"] ∧
      (stable_id [some "x"]).length = 64 :=
  ⟨C9_stable_id_trim_invariant_hex.1 [some " a "] [some "a"] (by decide),
    C9_stable_id_trim_invariant_hex.2.1 [some "a"] [some "b"],
    (C9_stable_id_trim_invariant_hex.2.2 [some "x"]).1⟩

/-! ## Claim C1 : the date-posted field -/

theorem dateIso_length (d : PyDate) : (dateIso d).length = 10 := rfl

theorem pyTake_length_of_le (n : Nat) (s : String) (h : n ≤ s.length) :
    (pyTake n s).length = n := by
  have h' : n ≤ s.data.length := h
  show (s.data.take n).length = n
  rw [List.length_take]
  exact Nat.min_eq_left h'

/-- Claim C1 (counterexample): both connectors can emit a `date_posted` that
is not a valid ISO calendar date.  Remotive truncates whatever string it
received to ten characters without validation; Arbeitnow falls back to the
leading ten characters of an unparseable string instead of dropping it. -/
theorem C1_counterexample_invalid_date_strings :
    remotive_date_posted (some "hello world foo") = some "hello worl" ∧
      validIsoDate "hello worl" = false ∧
      arbeitnow_parse_date_posted (PyVal.str "not-a-date-at-all") =
        some "not-a-date" ∧
      validIsoDate "not-a-date" = false := by decide

/-- Claim C1 (amended): for every source value, each connector's
`date_posted` is either absent or a string of exactly ten characters — the
ISO rendering of a successfully parsed date, or the leading ten characters of
the (stripped) source string, which need not be a valid date; unparseable
input never raises (both derivations are total functions into `Option`). -/
theorem C1_amended_date_posted_absent_or_ten_chars (pub : Option String)
    (v : PyVal) :
    (remotive_date_posted pub = none ∨
      ∃ t, remotive_date_posted pub = some t ∧ t.length = 10) ∧
      (arbeitnow_parse_date_posted v = none ∨
        ∃ t, arbeitnow_parse_date_posted v = some t ∧ t.length = 10) := by
  constructor
  · rw [remotive_date_posted]
    split
    · rename_i h
      exact Or.inr ⟨_, rfl, pyTake_length_of_le 10 _ h⟩
    · exact Or.inl rfl
  · cases v with
    | none => exact Or.inl rfl
    | str s0 =>
      simp only [arbeitnow_parse_date_posted]
      split
      · exact Or.inl rfl
      · split
        · rename_i d _
          exact Or.inr ⟨dateIso d, rfl, dateIso_length d⟩
        · split
          · rename_i h
            exact Or.inr ⟨_, rfl, pyTake_length_of_le 10 _ h⟩
          · exact Or.inl rfl
    | num q =>
      simp only [arbeitnow_parse_date_posted]
      split
      · rename_i d _
        exact Or.inr ⟨dateIso d, rfl, dateIso_length d⟩
      · exact Or.inl rfl

/-! ## Model validation

Concrete evaluations of the embedded library functions, checked by the
kernel; each expected value was obtained by running the corresponding CPython
code (`re`, `datetime`, `hashlib`) on the same input. -/

theorem validate_seniority_model :
    infer_seniority "Jr. Developer" = "junior" ∧
      infer_seniority "Entry   Level Tester" = "junior" ∧
      infer_seniority "Sr.Manager" = "senior" ∧
      infer_seniority "Dr. Sr" = "senior" ∧
      infer_seniority "VP of Eng" = "vp" ∧
      infer_seniority "internship" = "unknown" ∧
      infer_seniority "mid-level dev" = "unknown" ∧
      infer_seniority "midlevel dev" = "mid" ∧
      infer_seniority "Hrithik lead" = "senior" := by decide

theorem validate_requirements_model :
    extract_requirements "- foo\n- bar\n- foo" 12 = ["foo", "bar"] ∧
      extract_requirements "1. alpha beta\n2. gamma" 12 =
        ["alpha beta", "gamma"] ∧
      extract_requirements "text\n  - first   line\n  * second\nmore" 12 =
        ["first line", "second more"] ∧
      extract_requirements "-  " 12 = [] ∧
      extract_requirements "- ab\n- abcd\n3.x no\n10. ten" 12 =
        ["abcd 3.x no", "ten"] := by decide

theorem validate_keyword_model :
    extract_function_keywords "Mixed Signal design" = ["mixed-signal"] ∧
      subStr "hr" "chairman" = false ∧
      subStr "hr" "threshold" = true ∧
      is_electronics_role "recruiter of firmware" "" = false := by decide

theorem validate_date_model :
    remotive_date_posted (some "2024-01-01T12:34:56") = some "2024-01-01" ∧
      remotive_date_posted (some "short") = none ∧
      arbeitnow_parse_date_posted (PyVal.str "2024-05-07T10:21:33+00:00") =
        some "2024-05-07" ∧
      arbeitnow_parse_date_posted (PyVal.str "2024-05-07T10:21:33Z") =
        some "2024-05-07" ∧
      arbeitnow_parse_date_posted (PyVal.str "junk") = none ∧
      arbeitnow_parse_date_posted (PyVal.num 0) = some "1970-01-01" ∧
      validIsoDate "2024-05-07" = true ∧
      validIsoDate "2024-13-07" = false := by decide

theorem validate_sha256_model :
    stable_id [some "remotive", some "https://x.example/a"] =
      "0faac6c712e68d0f76fc8b66c9efeeb9ab0e06c539ec06c04d463144c4934942" ∧
      stable_id [] =
        "e3b0c44298fc1c149afbf4c8996fb92427ae41e4649b934ca495991b7852b855" ∧
      stable_id [some " a ", none, some "ü"] =
        "236d8210a4ef130a240783339ade1b56ae89346ebedb0df760cb540e7e796768" := by
  decide

theorem validate_merge_model :
    merge_jobs 10 [ra1, ra2, ra3] [rb1, rb2] = [ra1, rb1, ra2, rb2, ra3] ∧
      merge_jobs 10 [ra1, ra2] [ra1, rb2] = [ra1, ra2, rb2] ∧
      merge_jobs 0 [ra1] [rb1] = [] := by decide

theorem validate_retry_model :
    arbeitnow_request 3 (2 : ℚ)
        (fun k => if k < 2 then HttpOutcome.err 429 else HttpOutcome.ok 7) =
      ([2, 4], Except.ok 7) := by
  simp only [arbeitnow_request, retryGo]
  norm_num
